import Mathlib

/-!
# Verification of the mql query front end

A shallow embedding of the hashicorp/mql query front end, with proofs of the
specified properties.  The lexer is embedded from `lex.go`, the expression
tree and `root` from `expr.go`, the configuration options from `options.go`,
and the cursor primitives (`Shift`/`Backup`/`Peek`) from `lexer/lexer.go`.
The parser (`parse.go`) and compiler (`mql.go`) are not present in the source
tree, so they are modelled from the specification where needed.

Go runes are embedded as `Char`, Go strings as `String`/`List Char`, Go byte
strings (in the `lexer` package, which indexes byte offsets) as `List Nat`,
nilable values as `Option`, and fallible functions as `Except`.
-/

namespace Mql

/-- Token kinds used by `lex.go` (declared in the package's token vocabulary;
the kinds below are exactly the ones `lex.go` and its tests reference). -/
inductive tokenType where
  | unknownToken
  | errToken
  | eofToken
  | stringToken
  | equalToken
  | notEqualToken
  | greaterThanToken
  | greaterThanOrEqualToken
  | lessThanToken
  | lessThanOrEqualToken
  | containsToken
  | andToken
  | orToken
  | whitespaceToken
  | startLogicalExprToken
  | endLogicalExprToken
  deriving DecidableEq, Repr

/-- A lexed token: kind plus literal value (`token` in the mql package; the
Go field `Type` is spelled `typ` here since `Type` is reserved in Lean). -/
structure token where
  typ : tokenType
  Value : String
  deriving DecidableEq, Repr

/-- The only lexical error `lex.go` can raise: `ErrInvalidNotEqual`, carrying
the two-rune sequence actually seen (formatted into the error message by
`lexNotEqualState`). -/
inductive lexError where
  | invalidNotEqual (got : String)
  deriving DecidableEq, Repr

instance {ε α : Type} [DecidableEq ε] [DecidableEq α] : DecidableEq (Except ε α) := fun a b =>
  match a, b with
  | .ok x, .ok y => if h : x = y then isTrue (by simp [h]) else isFalse (by simp [h])
  | .error x, .error y => if h : x = y then isTrue (by simp [h]) else isFalse (by simp [h])
  | .ok _, .error _ => isFalse (by simp)
  | .error _, .ok _ => isFalse (by simp)

/-- `strings.ToLower` as used by `lexStringState`, where the result is only
compared against the ASCII literals `"and"` and `"or"` (per-character ASCII
lowercasing agrees with Go's Unicode lowercasing on every string whose
lowercase form could equal those literals). -/
def toLower (s : List Char) : List Char :=
  s.map Char.toLower

/-- `isSpace` from lex.go: space, tab, carriage return, newline. -/
def isSpace (r : Char) : Bool :=
  r = ' ' || r = '\t' || r = '\r' || r = '\n'

/-- `isSpecial` from lex.go: the structural runes. -/
def isSpecial (r : Char) : Bool :=
  r = '=' || r = '>' || r = '!' || r = '<' || r = '(' || r = ')' || r = '%'

/-- The `WriteToBuf` loop of `lexStringState`: reads runes into the buffer
until eof, a closing double quote (when scanning a quoted string), or a
space/special rune (when not quoted; that rune is unread).  Returns the
buffer contents and the remaining input. -/
def writeToBuf (quotedString : Bool) : List Char → List Char × List Char
  | [] => ([], [])
  | r :: rest =>
    if r = '"' && quotedString then ([], rest)
    else if (isSpace r || isSpecial r) && !quotedString then ([], r :: rest)
    else
      let p := writeToBuf quotedString rest
      (r :: p.1, p.2)

/-- `lexStringState` from lex.go: scans a quoted (double quotes only) or bare
string; for bare strings, a case-insensitive `and`/`or` is emitted as a
logical-operator token, otherwise a `stringToken` carrying the buffer. -/
def lexStringState (input : List Char) : token × List Char :=
  let start : Bool × List Char :=
    match input with
    | '"' :: rest => (true, rest)
    | other => (false, other)
  let quotedString := start.1
  let p := writeToBuf quotedString start.2
  if !quotedString && String.mk (toLower p.1) = "and" then
    ({ typ := .andToken, Value := "and" }, p.2)
  else if !quotedString && String.mk (toLower p.1) = "or" then
    ({ typ := .orToken, Value := "or" }, p.2)
  else ({ typ := .stringToken, Value := String.mk p.1 }, p.2)

/-- The `ReadWhitespace` loop of `lexWhitespaceState`: consume a maximal run
of whitespace (the first whitespace rune was already consumed by
`lexStartState`). -/
def readWhitespace : List Char → List Char
  | [] => []
  | ch :: rest => if isSpace ch then readWhitespace rest else ch :: rest

/-- `lexWhitespaceState` from lex.go: emits a single `whitespaceToken`
carrying no text. -/
def lexWhitespaceState (input : List Char) : token × List Char :=
  ({ typ := .whitespaceToken, Value := "" }, readWhitespace input)

/-- `lexGreaterState` from lex.go: a trailing `=` selects `>=`, anything else
is unread and `>` is emitted. -/
def lexGreaterState (input : List Char) : token × List Char :=
  match input with
  | '=' :: rest => ({ typ := .greaterThanOrEqualToken, Value := ">=" }, rest)
  | other => ({ typ := .greaterThanToken, Value := ">" }, other)

/-- `lexLesserState` from lex.go: a trailing `=` selects `<=`, anything else
is unread and `<` is emitted. -/
def lexLesserState (input : List Char) : token × List Char :=
  match input with
  | '=' :: rest => ({ typ := .lessThanOrEqualToken, Value := "<=" }, rest)
  | other => ({ typ := .lessThanToken, Value := "<" }, other)

/-- `lexNotEqualState` from lex.go: the very next rune must be `=`, otherwise
the lex fails with `ErrInvalidNotEqual` reporting the two-rune sequence seen.
At end of input the formatted sequence degenerates to the bang plus the
synthetic eof rune (whose printable form comes from the package's eof
constant); it is still an `ErrInvalidNotEqual` failure. -/
def lexNotEqualState (input : List Char) : Except lexError (token × List Char) :=
  match input with
  | '=' :: rest => .ok ({ typ := .notEqualToken, Value := "!=" }, rest)
  | nextRune :: _ => .error (.invalidNotEqual (String.mk ['!', nextRune]))
  | [] => .error (.invalidNotEqual "!")

/-- The lexer's control state: `lexStartState`, or the absorbing
`lexEofState` entered after the first `eofToken` is emitted. -/
inductive lexState where
  | startState
  | eofState
  deriving DecidableEq, Repr

/-- The lexer: remaining input plus the current state function.  (The Go
struct holds a `bufio.Reader` over the input and the state function; the
one-token channel always drains before the next state step, so `nextToken`
is a pure function of remaining input and state.) -/
structure lexer where
  rest : List Char
  state : lexState
  deriving DecidableEq, Repr

/-- A lexer positioned at the start of the given input (`newLexer`). -/
def lexInput (s : List Char) : lexer :=
  { rest := s, state := .startState }

/-- `newLexer` from lex.go. -/
def newLexer (s : String) : lexer :=
  lexInput s.toList

/-- `nextToken` from lex.go: runs state functions until a token is emitted or
a state fails.  The dispatch on the first rune is `lexStartState`; on eof it
emits an `eofToken` and moves to `lexEofState`, which keeps emitting
`eofToken` forever. -/
def nextToken (l : lexer) : Except lexError (token × lexer) :=
  match l.state with
  | .eofState => .ok ({ typ := .eofToken, Value := "" }, l)
  | .startState =>
    match l.rest with
    | [] => .ok ({ typ := .eofToken, Value := "" }, { rest := [], state := .eofState })
    | r :: rest =>
      if r = '>' then
        let p := lexGreaterState rest
        .ok (p.1, { rest := p.2, state := .startState })
      else if r = '<' then
        let p := lexLesserState rest
        .ok (p.1, { rest := p.2, state := .startState })
      else if r = '%' then
        .ok ({ typ := .containsToken, Value := "%" }, { rest := rest, state := .startState })
      else if r = '=' then
        .ok ({ typ := .equalToken, Value := "=" }, { rest := rest, state := .startState })
      else if r = '!' then
        match lexNotEqualState rest with
        | .error e => .error e
        | .ok p => .ok (p.1, { rest := p.2, state := .startState })
      else if r = ')' then
        .ok ({ typ := .endLogicalExprToken, Value := ")" }, { rest := rest, state := .startState })
      else if r = '(' then
        .ok ({ typ := .startLogicalExprToken, Value := "(" }, { rest := rest, state := .startState })
      else if isSpace r then
        let p := lexWhitespaceState rest
        .ok (p.1, { rest := p.2, state := .startState })
      else
        let p := lexStringState (r :: rest)
        .ok (p.1, { rest := p.2, state := .startState })

/-- Drive `nextToken` to completion (fuel-bounded), collecting the emitted
tokens up to and including the first `eofToken`. -/
def lexTokens : Nat → lexer → Except lexError (List token)
  | 0, _ => .ok []
  | fuel + 1, l =>
    match nextToken l with
    | .error e => .error e
    | .ok (t, l2) =>
      if t.typ = .eofToken then .ok [t]
      else
        match lexTokens fuel l2 with
        | .error e => .error e
        | .ok ts => .ok (t :: ts)

/-- Lex a whole query string. -/
def lexAll (s : String) : Except lexError (List token) :=
  lexTokens (s.length + 2) (newLexer s)

end Mql

section Examples

example : Mql.lexAll "name=alice" =
    .ok [{ typ := .stringToken, Value := "name" },
         { typ := .equalToken, Value := "=" },
         { typ := .stringToken, Value := "alice" },
         { typ := .eofToken, Value := "" }] := rfl

example : Mql.lexAll ">=" =
    .ok [{ typ := .greaterThanOrEqualToken, Value := ">=" },
         { typ := .eofToken, Value := "" }] := rfl

example : Mql.lexAll "and " =
    .ok [{ typ := .andToken, Value := "and" },
         { typ := .whitespaceToken, Value := "" },
         { typ := .eofToken, Value := "" }] := rfl

example : Mql.lexAll "!not" = .error (.invalidNotEqual "!n") := rfl

end Examples

namespace Mql

theorem lexGreaterState_typ_ne_eof (input : List Char) :
    (lexGreaterState input).1.typ ≠ tokenType.eofToken := by
  unfold lexGreaterState; split <;> simp

theorem lexLesserState_typ_ne_eof (input : List Char) :
    (lexLesserState input).1.typ ≠ tokenType.eofToken := by
  unfold lexLesserState; split <;> simp

theorem lexStringState_typ_ne_eof (input : List Char) :
    (lexStringState input).1.typ ≠ tokenType.eofToken := by
  unfold lexStringState
  split <;> dsimp only <;> split <;> (try split) <;> simp

theorem lexNotEqualState_typ (input : List Char) (t : token) (rem : List Char)
    (h : lexNotEqualState input = .ok (t, rem)) : t.typ = tokenType.notEqualToken := by
  unfold lexNotEqualState at h
  split at h
  · simp only [Except.ok.injEq, Prod.mk.injEq] at h
    rw [← h.1]
  · simp at h
  · simp at h

/-- Any successful `nextToken` call that returns an `eofToken` leaves the
lexer in `lexEofState`. -/
theorem nextToken_ok_eof_state (l : lexer) (t : token) (l2 : lexer)
    (h : nextToken l = .ok (t, l2)) (ht : t.typ = tokenType.eofToken) :
    l2.state = lexState.eofState := by
  obtain ⟨rest, st⟩ := l
  cases st with
  | eofState =>
    simp only [nextToken] at h
    simp only [Except.ok.injEq, Prod.mk.injEq] at h
    rw [← h.2]
  | startState =>
    cases rest with
    | nil =>
      simp only [nextToken] at h
      simp only [Except.ok.injEq, Prod.mk.injEq] at h
      rw [← h.2]
    | cons r rs =>
      simp only [nextToken] at h
      split at h
      · simp only [Except.ok.injEq, Prod.mk.injEq] at h
        exact absurd (h.1 ▸ ht) (lexGreaterState_typ_ne_eof rs)
      split at h
      · simp only [Except.ok.injEq, Prod.mk.injEq] at h
        exact absurd (h.1 ▸ ht) (lexLesserState_typ_ne_eof rs)
      split at h
      · simp only [Except.ok.injEq, Prod.mk.injEq] at h
        rw [← h.1] at ht; simp at ht
      split at h
      · simp only [Except.ok.injEq, Prod.mk.injEq] at h
        rw [← h.1] at ht; simp at ht
      split at h
      · split at h
        · exact absurd h (by simp)
        · next p heq =>
          simp only [Except.ok.injEq, Prod.mk.injEq] at h
          have := lexNotEqualState_typ rs p.1 p.2 (by rw [heq])
          rw [← h.1] at ht; simp_all
      split at h
      · simp only [Except.ok.injEq, Prod.mk.injEq] at h
        rw [← h.1] at ht; simp at ht
      split at h
      · simp only [Except.ok.injEq, Prod.mk.injEq] at h
        rw [← h.1] at ht; simp at ht
      split at h
      · simp only [Except.ok.injEq, Prod.mk.injEq] at h
        rw [← h.1] at ht; simp [lexWhitespaceState] at ht
      · simp only [Except.ok.injEq, Prod.mk.injEq] at h
        exact absurd (h.1 ▸ ht) (lexStringState_typ_ne_eof (r :: rs))

end Mql

namespace Mql

/-- C2: once `nextToken` has returned an `eofToken`, every subsequent call on
the resulting lexer again returns an `eofToken` with empty value and no
error, and leaves the lexer unchanged (the conclusion's lexer is again `l2`,
so the statement applies to itself for all further calls). -/
theorem nextToken_eof_idempotent (l l2 : lexer) (t : token)
    (h : nextToken l = .ok (t, l2)) (ht : t.typ = tokenType.eofToken) :
    nextToken l2 = .ok ({ typ := tokenType.eofToken, Value := "" }, l2) := by
  have hstate := nextToken_ok_eof_state l t l2 h ht
  obtain ⟨rest2, st2⟩ := l2
  simp only at hstate
  rw [hstate]
  rfl

/-- C2 witness: on the empty input the first call emits `eofToken`, and the
theorem yields that the next call emits `eofToken` again, unchanged. -/
theorem nextToken_eof_idempotent_witness :
    nextToken (newLexer "") =
      .ok ({ typ := tokenType.eofToken, Value := "" }, { rest := [], state := .eofState }) ∧
    nextToken { rest := [], state := .eofState } =
      .ok ({ typ := tokenType.eofToken, Value := "" }, { rest := [], state := .eofState }) :=
  ⟨rfl, nextToken_eof_idempotent (newLexer "") { rest := [], state := .eofState }
    { typ := tokenType.eofToken, Value := "" } rfl rfl⟩

/-- C3 (evaluation of the code at the failing input): on the input `"value`,
which opens a quoted string and reaches end of input before the closing
delimiter, `nextToken` succeeds and emits a `stringToken` built from the
partial content; it raises no missing-closing-delimiter error.  This
contradicts the claim (and the repository's own `Test_lexKeywordState`
case `missing-delimiter`). -/
theorem unterminated_quote_emits_partial_token :
    nextToken (newLexer "\"value") =
      .ok ({ typ := tokenType.stringToken, Value := "value" },
           { rest := [], state := .startState }) ∧
    lexAll "\"value" =
      .ok [{ typ := tokenType.stringToken, Value := "value" },
           { typ := tokenType.eofToken, Value := "" }] :=
  ⟨rfl, rfl⟩

/-- C4 (evaluation of the code at the failing input): a numeric-looking token
with a second decimal point (`1.21.`) lexes successfully as a plain
`stringToken`; the lexer has no number handling and raises no
invalid-number error (contradicting the claim and the repository's own
`Test_lexKeywordState` case `invalid-float`). -/
theorem second_decimal_point_lexes_as_string :
    lexAll "1.21." =
      .ok [{ typ := tokenType.stringToken, Value := "1.21." },
           { typ := tokenType.eofToken, Value := "" }] ∧
    lexAll "(age=1.21)" =
      .ok [{ typ := tokenType.startLogicalExprToken, Value := "(" },
           { typ := tokenType.stringToken, Value := "age" },
           { typ := tokenType.equalToken, Value := "=" },
           { typ := tokenType.stringToken, Value := "1.21" },
           { typ := tokenType.endLogicalExprToken, Value := ")" },
           { typ := tokenType.eofToken, Value := "" }] :=
  ⟨rfl, rfl⟩

/-- C6: when `!` is followed by any rune other than `=`, `nextToken` fails
with `ErrInvalidNotEqual` carrying the two-rune sequence actually seen, and
no token is emitted; when `!` is immediately followed by `=`, a single
`notEqualToken` with value `!=` is emitted.  On `name!alice` the failure
reports the sequence `!a`. -/
theorem notEqual_state_behavior (c : Char) (rest : List Char) (h : c ≠ '=') :
    nextToken (lexInput ('!' :: c :: rest)) =
      .error (.invalidNotEqual (String.mk ['!', c])) ∧
    nextToken (lexInput ('!' :: '=' :: rest)) =
      .ok ({ typ := tokenType.notEqualToken, Value := "!=" },
           { rest := rest, state := .startState }) ∧
    lexTokens 3 (newLexer "name!alice") = .error (.invalidNotEqual "!a") := by
  refine ⟨?_, rfl, rfl⟩
  have h1 : nextToken (lexInput ('!' :: c :: rest)) =
      match lexNotEqualState (c :: rest) with
      | .error e => .error e
      | .ok p => .ok (p.1, { rest := p.2, state := .startState }) := rfl
  have h2 : lexNotEqualState (c :: rest) =
      .error (.invalidNotEqual (String.mk ['!', c])) := by
    unfold lexNotEqualState
    split
    · next rest2 heq =>
      injection heq with ha hb
      exact absurd ha h
    · next nr tl heq =>
      injection heq with ha hb
      rw [ha]
    · next heq => cases heq
  rw [h1, h2]

/-- C6 witness: the general theorem applied at the rune `a`, as in the
`name!alice` scenario. -/
theorem notEqual_state_behavior_witness :
    nextToken (lexInput ('!' :: 'a' :: "lice".toList)) =
      .error (.invalidNotEqual "!a") :=
  (notEqual_state_behavior 'a' "lice".toList (by decide)).1

end Mql

namespace Mql

/-- Scanning a quoted string: the buffer collects everything up to the first
closing double quote, which is consumed. -/
theorem writeToBuf_quoted (s rest : List Char) (h : '"' ∉ s) :
    writeToBuf true (s ++ '"' :: rest) = (s, rest) := by
  induction s with
  | nil => simp [writeToBuf]
  | cons c cs ih =>
    simp only [List.mem_cons, not_or] at h
    have hc : ¬c = '"' := fun e => h.1 e.symm
    simp [writeToBuf, hc, ih h.2]

/-- Scanning a bare string: with no whitespace or structural rune in the
input, the buffer collects the whole input. -/
theorem writeToBuf_bare (s : List Char)
    (h : ∀ d ∈ s, isSpace d = false ∧ isSpecial d = false) :
    writeToBuf false s = (s, []) := by
  induction s with
  | nil => simp [writeToBuf]
  | cons c cs ih =>
    have hc := h c (List.mem_cons_self c cs)
    simp [writeToBuf, hc.1, hc.2, ih (fun d hd => h d (List.mem_cons_of_mem c hd))]

theorem lexStringState_bare (c : Char) (cs : List Char) (hq : c ≠ '"')
    (h : ∀ d ∈ c :: cs, isSpace d = false ∧ isSpecial d = false) :
    lexStringState (c :: cs) =
      (if String.mk (toLower (c :: cs)) = "and" then
         { typ := tokenType.andToken, Value := "and" }
       else if String.mk (toLower (c :: cs)) = "or" then
         { typ := tokenType.orToken, Value := "or" }
       else { typ := tokenType.stringToken, Value := String.mk (c :: cs) }, []) := by
  unfold lexStringState
  split
  · next rest heq =>
    injection heq with ha hb
    exact absurd ha hq
  · next other heq =>
    simp only [writeToBuf_bare (c :: cs) h]
    simp only [Bool.not_false, Bool.true_and]
    split
    · next hA => rw [if_pos (of_decide_eq_true hA)]
    · next hA =>
      have hA2 : ¬(String.mk (toLower (c :: cs)) = "and") :=
        fun hh => hA (by simp [hh])
      rw [if_neg hA2]
      split
      · next hO => rw [if_pos (of_decide_eq_true hO)]
      · next hO =>
        have hO2 : ¬(String.mk (toLower (c :: cs)) = "or") :=
          fun hh => hO (by simp [hh])
        rw [if_neg hO2]

theorem lexStringState_quoted (s rest : List Char) (h : '"' ∉ s) :
    lexStringState ('"' :: (s ++ '"' :: rest)) =
      ({ typ := tokenType.stringToken, Value := String.mk s }, rest) := by
  unfold lexStringState
  simp only [writeToBuf_quoted s rest h]
  simp

/-- The `lexStartState` dispatch sends any rune that is not whitespace and
not structural to `lexStringState` with that rune unread. -/
theorem nextToken_string_dispatch (c : Char) (cs : List Char)
    (hsp : isSpace c = false) (hspec : isSpecial c = false) :
    nextToken (lexInput (c :: cs)) =
      .ok ((lexStringState (c :: cs)).1,
           { rest := (lexStringState (c :: cs)).2, state := .startState }) := by
  have hgt : ¬c = '>' := fun e => by subst e; simp [isSpecial] at hspec
  have hlt : ¬c = '<' := fun e => by subst e; simp [isSpecial] at hspec
  have hpct : ¬c = '%' := fun e => by subst e; simp [isSpecial] at hspec
  have he : ¬c = '=' := fun e => by subst e; simp [isSpecial] at hspec
  have hbang : ¬c = '!' := fun e => by subst e; simp [isSpecial] at hspec
  have hrp : ¬c = ')' := fun e => by subst e; simp [isSpecial] at hspec
  have hlp : ¬c = '(' := fun e => by subst e; simp [isSpecial] at hspec
  simp only [nextToken, lexInput]
  rw [if_neg hgt, if_neg hlt, if_neg hpct, if_neg he, if_neg hbang, if_neg hrp, if_neg hlp,
    if_neg (by simp [hsp])]

/-- C5: an unquoted bare token is emitted as `andToken`/`orToken` exactly
when its text case-insensitively equals `and`/`or` (otherwise as a
`stringToken`), while a double-quoted token is always emitted as a
`stringToken` carrying the literal content, so quoted `and`/`or` are never
treated as operators. -/
theorem and_or_keyword_recognition :
    (∀ (c : Char) (cs : List Char), c ≠ '"' →
      (∀ d ∈ c :: cs, isSpace d = false ∧ isSpecial d = false) →
      nextToken (lexInput (c :: cs)) =
        .ok (if String.mk (toLower (c :: cs)) = "and" then
               { typ := tokenType.andToken, Value := "and" }
             else if String.mk (toLower (c :: cs)) = "or" then
               { typ := tokenType.orToken, Value := "or" }
             else { typ := tokenType.stringToken, Value := String.mk (c :: cs) },
             { rest := [], state := .startState })) ∧
    (∀ s rest : List Char, '"' ∉ s →
      nextToken (lexInput ('"' :: (s ++ '"' :: rest))) =
        .ok ({ typ := tokenType.stringToken, Value := String.mk s },
             { rest := rest, state := .startState })) := by
  constructor
  · intro c cs hq h
    have hc := h c (List.mem_cons_self c cs)
    rw [nextToken_string_dispatch c cs hc.1 hc.2, lexStringState_bare c cs hq h]
  · intro s rest h
    have hd : nextToken (lexInput ('"' :: (s ++ '"' :: rest))) =
        .ok ((lexStringState ('"' :: (s ++ '"' :: rest))).1,
             { rest := (lexStringState ('"' :: (s ++ '"' :: rest))).2,
               state := .startState }) := rfl
    rw [hd, lexStringState_quoted s rest h]

/-- C5 witness: `AnD` (mixed case, bare) lexes to `andToken`; a quoted
`"or"` lexes to a plain `stringToken` with value `or`. -/
theorem and_or_keyword_recognition_witness :
    nextToken (lexInput ['A', 'n', 'D']) =
      .ok ({ typ := tokenType.andToken, Value := "and" },
           { rest := [], state := .startState }) ∧
    nextToken (lexInput ('"' :: ("or".toList ++ '"' :: []))) =
      .ok ({ typ := tokenType.stringToken, Value := "or" },
           { rest := [], state := .startState }) := by
  constructor
  · have := and_or_keyword_recognition.1 'A' ['n', 'D'] (by decide) (by decide)
    simpa using this
  · have := and_or_keyword_recognition.2 "or".toList [] (by decide)
    simpa using this

end Mql

namespace Mql

/-- The `options` struct from options.go.  Go maps are embedded as
`Option (List (String × String))` so that a nil map (`none`) is
distinguished from an empty one (`some []`); the `ValidateConvertFunc`
function value is embedded as `Option Nat` (an opaque identity: `none` is a
nil function, `some i` a non-nil one), since only nil-ness and identity of
the registered converter matter to the configuration logic. -/
structure options where
  withSkipWhitespace : Bool := false
  withColumnMap : Option (List (String × String)) := none
  withValidateConvertFn : Option Nat := none
  withValidateConvertColumn : String := ""
  withIgnoredFields : List String := []
  withPgPlaceholder : Bool := false
  deriving DecidableEq, Repr

/-- `getDefaultOptions` from options.go: every field is the Go zero value
except `withColumnMap`, which is initialized to an empty (non-nil) map. -/
def getDefaultOptions : options :=
  { withColumnMap := some [] }

/-- The recognized option constructors from options.go, as passable
arguments. -/
inductive optionArg where
  | withSkipWhitespace
  | WithColumnMap (m : Option (List (String × String)))
  | WithConverter (fieldName : String) (fn : Option Nat)
  | WithIgnoredFields (fieldName : List String)
  | WithPgPlaceholders
  deriving DecidableEq, Repr

/-- Application of one option from options.go: returns the updated options
and an optional error (Go options mutate `*options` and return `error`).
`WithColumnMap` stores the map only when it is non-nil; `WithConverter`
requires both a field name and a non-nil function (and silently does
nothing when both are missing, mirroring the Go switch with no default
case); `WithIgnoredFields` stores the list only when it is non-empty. -/
def applyOption (o : options) : optionArg → options × Option String
  | .withSkipWhitespace => ({ o with withSkipWhitespace := true }, none)
  | .WithColumnMap m =>
    match m with
    | none => (o, none)
    | some mm => ({ o with withColumnMap := some mm }, none)
  | .WithConverter fieldName fn =>
    if fieldName ≠ "" ∧ fn.isSome then
      ({ o with withValidateConvertFn := fn, withValidateConvertColumn := fieldName }, none)
    else if fieldName = "" ∧ fn.isSome then
      (o, some "mql.WithSqlConverter: missing field name: invalid parameter")
    else if fieldName ≠ "" ∧ fn = none then
      (o, some "mql.WithSqlConverter: missing ConvertToSqlFunc: invalid parameter")
    else (o, none)
  | .WithIgnoredFields fieldName =>
    if fieldName.length > 0 then ({ o with withIgnoredFields := fieldName }, none)
    else (o, none)
  | .WithPgPlaceholders => ({ o with withPgPlaceholder := true }, none)

/-- The loop body of `getOpts`: fold the options over an accumulator,
stopping at (and returning) the first error together with the options
accumulated so far, as the Go code does. -/
def getOptsGo (o : options) : List optionArg → options × Option String
  | [] => (o, none)
  | a :: rest =>
    let p := applyOption o a
    match p.2 with
    | some e => (p.1, some e)
    | none => getOptsGo p.1 rest

/-- `getOpts` from options.go. -/
def getOpts (args : List optionArg) : options × Option String :=
  getOptsGo getDefaultOptions args

end Mql

section OptionExamples

example : (Mql.getOpts [.WithConverter "name" none]).2 =
    some "mql.WithSqlConverter: missing ConvertToSqlFunc: invalid parameter" := by decide

example : (Mql.getOpts [.WithConverter "" (some 1)]).2 =
    some "mql.WithSqlConverter: missing field name: invalid parameter" := by decide

end OptionExamples

namespace Mql

/-- C8 (evaluation of the code at the failing input): registering a custom
converter twice for the same field succeeds with no error, and the second
registration silently replaces the first (the single
`withValidateConvertFn`/`withValidateConvertColumn` pair is overwritten).
This contradicts the claim (and the repository's own `TestParse` case
`err-WithConverter-duplicated-converter`, which expects the error
`duplicated convert: invalid parameter`). -/
theorem duplicate_converter_silently_replaces :
    getOpts [.WithConverter "name" (some 1), .WithConverter "name" (some 2)] =
      ({ getDefaultOptions with
           withValidateConvertFn := some 2,
           withValidateConvertColumn := "name" }, none) := by
  decide

theorem applyOption_columnMap_isSome (o : options) (a : optionArg)
    (h : o.withColumnMap.isSome = true) :
    ((applyOption o a).1.withColumnMap).isSome = true := by
  cases a with
  | withSkipWhitespace => simpa [applyOption] using h
  | WithColumnMap m => cases m <;> simp [applyOption, h]
  | WithConverter fieldName fn =>
    simp only [applyOption]
    split
    · simpa using h
    · split
      · simpa using h
      · split
        · simpa using h
        · simpa using h
  | WithIgnoredFields names =>
    simp only [applyOption]
    split <;> simpa using h
  | WithPgPlaceholders => simpa [applyOption] using h

theorem getOptsGo_columnMap_isSome (args : List optionArg) (o : options)
    (h : o.withColumnMap.isSome = true) :
    ((getOptsGo o args).1.withColumnMap).isSome = true := by
  induction args generalizing o with
  | nil => simpa [getOptsGo] using h
  | cons a rest ih =>
    simp only [getOptsGo]
    cases hp : (applyOption o a).2 with
    | some e => exact applyOption_columnMap_isSome o a h
    | none => exact ih (applyOption o a).1 (applyOption_columnMap_isSome o a h)

/-- C9: the options value produced by `getOpts` always carries a non-nil
column map: the default is an empty map, and `WithColumnMap` applied to a
nil map is accepted without error and leaves the existing map in place. -/
theorem getOpts_columnMap_never_nil :
    (∀ args : List optionArg, ((getOpts args).1.withColumnMap).isSome = true) ∧
    getDefaultOptions.withColumnMap = some [] ∧
    (∀ o : options, applyOption o (.WithColumnMap none) = (o, none)) := by
  refine ⟨?_, rfl, ?_⟩
  · intro args
    exact getOptsGo_columnMap_isSome args getDefaultOptions rfl
  · intro o
    rfl

end Mql

namespace Mql

/-- Errors raised by `expr.go`'s `root` (and by the compiler model below),
carrying the payload the Go errors format into their messages. -/
inductive mqlErr where
  | invalidParameter (msg : String)
  | missingExpr (raw : String)
  | missingRightSideExpr (raw : String)
  | missingLogicalOp
  | missingComparisonValue
  | invalidColumn (column : String)
  | invalidComparisonOp (op : String)
  | conversionFailed (value : String)
  | parseFailure (kind : String)
  deriving DecidableEq, Repr

/-- The expression tree from expr.go: `comparisonExpr` leaves and
`logicalExpr` internal nodes.  A Go `expr` interface value can be nil, so
the embedding adds `nilExpr` for the nil interface value. -/
inductive expr where
  | comparisonExpr (column : String) (comparisonOp : String) (value : Option String)
  | logicalExpr (leftExpr : expr) (logicalOp : String) (rightExpr : expr)
  | nilExpr
  deriving DecidableEq, Repr

/-- The `for lExpr.logicalOp == ""` loop of `root` in expr.go: while the
operator is empty, fail on a nil left child, return a comparison left child,
or descend into a logical left child (the Go type assertion
`lExpr.leftExpr.(*logicalExpr)`). -/
def rootFor (leftE : expr) (lop : String) (rightE : expr) (raw : String) :
    Except mqlErr expr :=
  if lop = "" then
    match leftE with
    | .nilExpr => .error (.missingExpr raw)
    | .comparisonExpr c o v => .ok (.comparisonExpr c o v)
    | .logicalExpr l op r => rootFor l op r raw
  else .ok (.logicalExpr leftE lop rightE)

/-- `root` from expr.go, taking the fields of the (possibly nil)
`*logicalExpr` argument: a nil pointer is an invalid-parameter error; a
non-empty operator with a nil right side is `ErrMissingRightSideExpr`;
otherwise the normalization loop runs. -/
def root (lExpr : Option (expr × String × expr)) (raw : String) :
    Except mqlErr expr :=
  match lExpr with
  | none => .error (.invalidParameter "missing expression")
  | some (leftE, lop, rightE) =>
    if lop ≠ "" ∧ rightE = .nilExpr then .error (.missingRightSideExpr raw)
    else rootFor leftE lop rightE raw

end Mql

section RootExamples

example : Mql.root none "raw" = .error (.invalidParameter "missing expression") := rfl

example : Mql.root (some (.nilExpr, "", .comparisonExpr "" "" none)) "raw" =
    .error (.missingExpr "raw") := rfl

end RootExamples

namespace Mql

/-- C7 counterexample: a node whose logical operator is empty but whose
right side is a populated comparison is normalized by `root` to its left
child with no error; the populated right-hand side is silently discarded
rather than reported as `MissingExpr`/`MissingRightSideExpr`. -/
theorem root_drops_populated_right_counterexample :
    root (some (.comparisonExpr "name" "=" (some "alice"), "",
                .comparisonExpr "age" ">" (some "21"))) "name=alice age>21" =
      .ok (.comparisonExpr "name" "=" (some "alice")) := rfl

/-- C7 (amended): `root` normalizes an empty-operator node by unwrapping to
its left side regardless of the right side, silently dropping any populated
`rightExpr`; the `MissingRightSideExpr` error is raised exactly when the
top node's operator is non-empty and its `rightExpr` is nil. -/
theorem root_empty_op_unwraps_left :
    (∀ (c o : String) (v : Option String) (rightE : expr) (raw : String),
      root (some (.comparisonExpr c o v, "", rightE)) raw =
        .ok (.comparisonExpr c o v)) ∧
    (∀ (leftE : expr) (lop : String) (raw : String), lop ≠ "" →
      root (some (leftE, lop, .nilExpr)) raw =
        .error (.missingRightSideExpr raw)) := by
  constructor
  · intro c o v rightE raw
    rfl
  · intro leftE lop raw h
    simp only [root]
    rw [if_pos ⟨h, trivial⟩]

/-- C7 amended-claim witness: the two parts of the theorem applied at
concrete inputs. -/
theorem root_empty_op_unwraps_left_witness :
    root (some (.comparisonExpr "a" "=" (some "b"), "", .nilExpr)) "q" =
      .ok (.comparisonExpr "a" "=" (some "b")) ∧
    root (some (.comparisonExpr "a" "=" (some "b"), "and", .nilExpr)) "q" =
      .error (.missingRightSideExpr "q") :=
  ⟨root_empty_op_unwraps_left.1 "a" "=" (some "b") .nilExpr "q",
   root_empty_op_unwraps_left.2 (.comparisonExpr "a" "=" (some "b")) "and" "q"
     (by decide)⟩

end Mql

namespace LexerPkg

/-- The `readOp` values from lexer/lexer.go (an `int8`): `opRead = -1`,
`opInvalid = 0`, `opReadRune1 .. opReadRune4 = 1 .. 4`. -/
def opInvalid : Int := 0

/-- `RuneEOF` from lexer/lexer.go: the synthetic rune emitted at end of
input. -/
def RuneEOF : Int := 0

/-- `utf8.RuneError`, returned by `DecodeRuneInString` on malformed input. -/
def RuneError : Int := 0xFFFD

/-- First-byte classification of Go's `utf8` package (`first` table):
returns the sequence size together with the accepted range for the second
byte, or size `0` for a byte that cannot start a multi-byte sequence. -/
def utf8First (s0 : Nat) : Nat × Nat × Nat :=
  if 0xC2 ≤ s0 ∧ s0 ≤ 0xDF then (2, 0x80, 0xBF)
  else if s0 = 0xE0 then (3, 0xA0, 0xBF)
  else if 0xE1 ≤ s0 ∧ s0 ≤ 0xEC then (3, 0x80, 0xBF)
  else if s0 = 0xED then (3, 0x80, 0x9F)
  else if 0xEE ≤ s0 ∧ s0 ≤ 0xEF then (3, 0x80, 0xBF)
  else if s0 = 0xF0 then (4, 0x90, 0xBF)
  else if 0xF1 ≤ s0 ∧ s0 ≤ 0xF3 then (4, 0x80, 0xBF)
  else if s0 = 0xF4 then (4, 0x80, 0x8F)
  else (0, 0, 0)

/-- `utf8.DecodeRuneInString` over a byte list: returns the decoded rune and
the number of bytes consumed; malformed input yields `(RuneError, 1)` and an
empty input `(RuneError, 0)`, as in Go. -/
def decodeRuneInString (s : List Nat) : Int × Nat :=
  match s with
  | [] => (RuneError, 0)
  | s0 :: tail =>
    if s0 < 0x80 then (Int.ofNat s0, 1)
    else
      let info := utf8First s0
      let sz := info.1
      let lo := info.2.1
      let hi := info.2.2
      if sz = 0 then (RuneError, 1)
      else if s.length < sz then (RuneError, 1)
      else
        let s1 := tail.getD 0 0
        if s1 < lo ∨ hi < s1 then (RuneError, 1)
        else if sz ≤ 2 then
          (Int.ofNat (((s0 &&& 0x1F) <<< 6) ||| (s1 &&& 0x3F)), 2)
        else
          let s2 := tail.getD 1 0
          if s2 < 0x80 ∨ 0xBF < s2 then (RuneError, 1)
          else if sz ≤ 3 then
            (Int.ofNat (((s0 &&& 0x0F) <<< 12) ||| ((s1 &&& 0x3F) <<< 6) ||| (s2 &&& 0x3F)), 3)
          else
            let s3 := tail.getD 2 0
            if s3 < 0x80 ∨ 0xBF < s3 then (RuneError, 1)
            else
              (Int.ofNat (((s0 &&& 0x07) <<< 18) ||| ((s1 &&& 0x3F) <<< 12) |||
                ((s2 &&& 0x3F) <<< 6) ||| (s3 &&& 0x3F)), 4)

/-- The `Lexer` struct from lexer/lexer.go; `buf` is the input string as
bytes (the Go code indexes byte offsets), `lastRead` the `readOp` field. -/
structure Lexer where
  buf : List Nat
  off : Nat := 0
  lastRead : Int := 0
  pos : Nat := 0
  eof : Bool := false
  deriving DecidableEq, Repr

/-- `empty` from lexer/lexer.go: the offset is at the end of the buffer. -/
def Lexer.isEmpty (l : Lexer) : Bool :=
  l.buf.length ≤ l.off

/-- `Off` from lexer/lexer.go. -/
def Lexer.Off (l : Lexer) : Nat := l.off

/-- `Shift` from lexer/lexer.go: return the next rune; at end of input a
synthetic `RuneEOF` is emitted and the offset is not modified; an ASCII byte
advances by one; otherwise the UTF-8 decoder determines the rune and its
size. -/
def Lexer.Shift (l : Lexer) : Int × Lexer :=
  if l.isEmpty then
    (RuneEOF, { l with eof := true, lastRead := 1 })
  else
    let c := l.buf.getD l.off 0
    if c < 0x80 then
      (Int.ofNat c, { l with off := l.off + 1, lastRead := 1 })
    else
      let p := decodeRuneInString (l.buf.drop l.off)
      (p.1, { l with off := l.off + p.2, lastRead := Int.ofNat p.2 })

/-- `Backup` from lexer/lexer.go: move the offset back by the size of the
last read rune; only one backup is possible; if the last rune was the
synthetic eof, the offset is not modified (and, as in the Go code, the
`lastRead` field is left untouched on that path).  Returns the unchanged
state alongside the error when the previous operation was not a successful
read. -/
def Lexer.Backup (l : Lexer) : Lexer × Option String :=
  if l.lastRead ≤ opInvalid then
    (l, some "UnreadRune: previous operation was not a successful ReadRune")
  else if l.eof then
    ({ l with eof := false }, none)
  else
    let l2 := if (l.lastRead : Int) ≤ (l.off : Int) then { l with off := l.off - l.lastRead.toNat }
              else l
    ({ l2 with lastRead := opInvalid }, none)

/-- `Peek` from lexer/lexer.go: `Shift` followed by `Backup` (whose error is
discarded). -/
def Lexer.Peek (l : Lexer) : Int × Lexer :=
  let p := l.Shift
  (p.1, (p.2.Backup).1)

end LexerPkg

section LexerPkgExamples

example : (LexerPkg.Lexer.Shift { buf := [0x61, 0x62] }).1 = 0x61 := by decide

example :
    (LexerPkg.Lexer.Shift { buf := [0xC3, 0xA9] }).1 = 0xE9 ∧
    (LexerPkg.Lexer.Shift { buf := [0xC3, 0xA9] }).2.off = 2 := by decide

example : (LexerPkg.Lexer.Peek { buf := [] }).1 = LexerPkg.RuneEOF := by decide

end LexerPkgExamples

namespace LexerPkg

/-- `Shift` reads only the buffer and the offset, so its emitted rune is
determined by them. -/
theorem Shift_fst_congr (a b : Lexer) (hb : a.buf = b.buf) (ho : a.off = b.off) :
    (a.Shift).1 = (b.Shift).1 := by
  simp only [Lexer.Shift, Lexer.isEmpty, hb, ho, apply_ite Prod.fst]

/-- `Shift` followed by `Backup` restores the offset and leaves the buffer
unchanged, for any state whose `eof` flag is only set at end of input. -/
theorem Shift_Backup_off (l : Lexer) (h : l.eof = true → l.buf.length ≤ l.off) :
    ((l.Shift).2.Backup).1.off = l.off ∧ ((l.Shift).2.Backup).1.buf = l.buf := by
  by_cases hemp : l.isEmpty = true
  · -- end of input: Shift emits the synthetic eof rune without moving the
    -- offset, and Backup takes the eof branch, also not moving it
    simp only [Lexer.Shift, if_pos hemp]
    simp [Lexer.Backup, opInvalid]
  · have heof : l.eof = false := by
      cases hb : l.eof
      · rfl
      · exact absurd (h hb) (by simpa [Lexer.isEmpty] using hemp)
    simp only [Lexer.Shift, if_neg hemp]
    by_cases hc : l.buf.getD l.off 0 < 0x80
    · rw [if_pos hc]
      simp only [Lexer.Backup, opInvalid, heof]
      norm_num
    · rw [if_neg hc]
      simp only [Lexer.Backup, opInvalid, heof, Int.ofNat_eq_natCast]
      by_cases hz : (decodeRuneInString (l.buf.drop l.off)).2 = 0
      · -- a zero-size decode (impossible on a non-empty suffix, but
        -- harmless): Backup rejects the non-positive lastRead and leaves
        -- the state untouched, and the offset moved by zero
        simp [hz]
      · have hpos : 0 < (decodeRuneInString (l.buf.drop l.off)).2 :=
          Nat.pos_of_ne_zero hz
        rw [if_neg (by omega)]
        simp only [Bool.false_eq_true, if_false]
        rw [if_pos (by push_cast; omega)]
        constructor
        · simp only [Int.toNat_natCast]
          omega
        · rfl

/-- C10: `Peek` leaves `Off()` unchanged and returns exactly the rune an
immediately following `Shift` returns; equivalently, `Shift` immediately
followed by `Backup` restores the pre-`Shift` offset — including at end of
input, where the synthetic eof rune is produced.  The hypothesis states the
`Lexer` invariant that the `eof` flag is only ever set at end of input
(`Shift` is its only writer and sets it exactly at end of input). -/
theorem Peek_Shift_roundtrip (l : Lexer) (h : l.eof = true → l.buf.length ≤ l.off) :
    (l.Peek).2.Off = l.Off ∧ ((l.Peek).2.Shift).1 = (l.Peek).1 ∧
    ((l.Shift).2.Backup).1.Off = l.Off := by
  obtain ⟨hoff, hbuf⟩ := Shift_Backup_off l h
  refine ⟨hoff, ?_, hoff⟩
  have h1 : (l.Peek).2 = ((l.Shift).2.Backup).1 := rfl
  have h2 : (l.Peek).1 = (l.Shift).1 := rfl
  rw [h1, h2]
  exact Shift_fst_congr _ _ hbuf hoff

/-- C10 witness: the round trip evaluated on the two-byte buffer `ab` (fresh
state) and on an empty buffer (eof case). -/
theorem Peek_Shift_roundtrip_witness :
    (({ buf := [0x61, 0x62] } : Lexer).eof = true →
      ({ buf := [0x61, 0x62] } : Lexer).buf.length ≤ ({ buf := [0x61, 0x62] } : Lexer).off) ∧
    (Lexer.Peek { buf := [0x61, 0x62] }).2.Off = Lexer.Off { buf := [0x61, 0x62] } ∧
    ((Lexer.Peek { buf := [0x61, 0x62] }).2.Shift).1 = (Lexer.Peek { buf := [0x61, 0x62] }).1 ∧
    ((Lexer.Shift { buf := [0x61, 0x62] }).2.Backup).1.Off = Lexer.Off { buf := [0x61, 0x62] } :=
  ⟨by decide, Peek_Shift_roundtrip { buf := [0x61, 0x62] } (by decide)⟩

end LexerPkg

namespace Mql

/-- Modelled from the spec: the declared type tags of the validator entries
(schema-declared field types; `mql.go`'s `fieldValidators` is missing from
the source tree). -/
inductive fieldType where
  | stringT
  | intT
  | floatT
  | boolT
  | timeT
  deriving DecidableEq, Repr

/-- Modelled from the spec: a strongly-typed bound argument value produced
by the default converter (float and time values keep their validated raw
text; Go binds a parsed float and the date string respectively). -/
inductive sqlValue where
  | strV (s : String)
  | intV (n : Int)
  | floatV (raw : String)
  | boolV (b : Bool)
  | timeV (raw : String)
  deriving DecidableEq, Repr

/-- `WhereClause` (compiler output): a condition string using placeholders
plus the ordered bound arguments. -/
structure WhereClause where
  Condition : String
  Args : List sqlValue
  deriving DecidableEq, Repr

/-- Decimal digit accumulation for integer literal parsing. -/
def digitsToNat (acc : Nat) : List Char → Option Nat
  | [] => some acc
  | c :: rest =>
    if c.isDigit then digitsToNat (acc * 10 + (c.toNat - 48)) rest else none

/-- Modelled from the spec: integer literal conversion (Go uses
`strconv.ParseInt`): an optional sign followed by at least one digit. -/
def strToInt : List Char → Option Int
  | '-' :: rest =>
    match rest, digitsToNat 0 rest with
    | _ :: _, some n => some (-(n : Int))
    | _, _ => none
  | s =>
    match s, digitsToNat 0 s with
    | _ :: _, some n => some ((n : Int))
    | _, _ => none

/-- Modelled from the spec: float literal shape (digits with at most one
decimal point; Go uses `strconv.ParseFloat`). -/
def isFloatLit (s : List Char) : Bool :=
  let t := match s with
    | '-' :: r => r
    | other => other
  let intPart := t.takeWhile Char.isDigit
  let rest := t.dropWhile Char.isDigit
  match rest with
  | [] => !intPart.isEmpty
  | '.' :: frac => frac.all Char.isDigit && (!intPart.isEmpty || !frac.isEmpty)
  | _ => false

/-- Modelled from the spec: date literals must be in `YYYY-MM-DD` form. -/
def isDateLit : List Char → Bool
  | [a, b, c, d, e, f, g, h, i, j] =>
    a.isDigit && b.isDigit && c.isDigit && d.isDigit && e = '-' &&
    f.isDigit && g.isDigit && h = '-' && i.isDigit && j.isDigit
  | _ => false

/-- Assoc-list lookup (the Go maps used by the compiler). -/
def lookupStr {α : Type} (key : String) : List (String × α) → Option α
  | [] => none
  | (k, v) :: rest => if k = key then some v else lookupStr key rest

/-- Modelled from the spec: the default validate+convert step of the missing
compiler (`mql.go`'s `defaultValidateConvert`): verify the operator is
meaningful for the declared type (`%` only for string-like types), convert
the literal into a strongly-typed bound value, and wrap `%` values in
wildcard markers on both sides. -/
def defaultConvert (typ : fieldType) (op : String) (v : String) :
    Except mqlErr sqlValue :=
  match typ with
  | .stringT =>
    if op = "%" then .ok (.strV ("%" ++ v ++ "%")) else .ok (.strV v)
  | .intT =>
    if op = "%" then .error (.invalidComparisonOp op)
    else
      match strToInt v.toList with
      | some n => .ok (.intV n)
      | none => .error (.conversionFailed v)
  | .floatT =>
    if op = "%" then .error (.invalidComparisonOp op)
    else if isFloatLit v.toList then .ok (.floatV v)
    else .error (.conversionFailed v)
  | .boolT =>
    if op = "%" then .error (.invalidComparisonOp op)
    else if v = "true" then .ok (.boolV true)
    else if v = "false" then .ok (.boolV false)
    else .error (.conversionFailed v)
  | .timeT =>
    if op = "%" then .error (.invalidComparisonOp op)
    else if isDateLit v.toList then .ok (.timeV v)
    else .error (.conversionFailed v)

/-- Modelled from the spec: the missing compiler (`mql.go`'s
`exprToWhereClause`, default conversion path without custom per-field
converters).  Postorder walk threading the next placeholder number: a leaf
resolves its column through the alias map, looks up the validator entry
case-insensitively, converts the value, and emits
`column comparison-op placeholder` (with a `::date` suffix on time columns
and ` like ` as the contains operator text); an internal node requires a
non-empty logical operator, joins the compiled children with it, and wraps
the result in parentheses unconditionally.  Returns the condition, the
bound args in left-to-right order, and the next placeholder number. -/
def exprToWhereClause (validators : List (String × fieldType))
    (columnMap : List (String × String)) (pg : Bool) :
    expr → Nat → Except mqlErr (String × List sqlValue × Nat)
  | .nilExpr, _ => .error (.invalidParameter "missing expression")
  | .comparisonExpr column op value, n =>
    let mapped := (lookupStr column columnMap).getD column
    let canonical := String.mk (toLower mapped.toList)
    match lookupStr canonical validators with
    | none => .error (.invalidColumn column)
    | some typ =>
      match value with
      | none => .error .missingComparisonValue
      | some v =>
        match defaultConvert typ op v with
        | .error e => .error e
        | .ok arg =>
          let colExpr := if typ = .timeT then canonical ++ "::date" else canonical
          let opStr := if op = "%" then " like " else op
          let ph := if pg then "$" ++ toString n else "?"
          .ok (colExpr ++ opStr ++ ph, [arg], n + 1)
  | .logicalExpr leftE lop rightE, n =>
    if lop = "" then .error .missingLogicalOp
    else
      match exprToWhereClause validators columnMap pg leftE n with
      | .error e => .error e
      | .ok (lc, la, n1) =>
        match exprToWhereClause validators columnMap pg rightE n1 with
        | .error e => .error e
        | .ok (rc, ra, n2) =>
          .ok ("(" ++ lc ++ " " ++ lop ++ " " ++ rc ++ ")", la ++ ra, n2)

/-- The comparison-operator text carried by an operator token. -/
def tokenCompareOp (t : token) : Option String :=
  match t.typ with
  | .equalToken => some "="
  | .notEqualToken => some "!="
  | .greaterThanToken => some ">"
  | .greaterThanOrEqualToken => some ">="
  | .lessThanToken => some "<"
  | .lessThanOrEqualToken => some "<="
  | .containsToken => some "%"
  | _ => none

mutual

/-- Modelled from the spec: one operand of the missing recursive-descent
grammar (`parse.go`): a parenthesized condition, or a comparison
`column compareOp value`. -/
def parseOperand : Nat → List token → Except mqlErr (expr × List token)
  | 0, _ => .error (.parseFailure "out of fuel")
  | fuel + 1, toks =>
    match toks with
    | { typ := .startLogicalExprToken, .. } :: rest =>
      match parseCondition fuel rest with
      | .error e => .error e
      | .ok (e, rest2) =>
        match rest2 with
        | { typ := .endLogicalExprToken, .. } :: rest3 => .ok (e, rest3)
        | _ => .error (.parseFailure "missing closing paren")
    | { typ := .stringToken, Value := col } :: rest =>
      match rest with
      | opTok :: rest2 =>
        match tokenCompareOp opTok with
        | some op =>
          match rest2 with
          | { typ := .stringToken, Value := v } :: rest3 =>
            .ok (.comparisonExpr col op (some v), rest3)
          | _ => .error (.parseFailure "missing comparison value")
        | none => .error (.parseFailure "missing comparison operator")
      | [] => .error (.parseFailure "missing comparison operator")
    | _ => .error (.parseFailure "unexpected token")

/-- Modelled from the spec: a condition of the missing grammar — an operand
followed by left-associative logical combinations. -/
def parseCondition : Nat → List token → Except mqlErr (expr × List token)
  | 0, _ => .error (.parseFailure "out of fuel")
  | fuel + 1, toks =>
    match parseOperand fuel toks with
    | .error e => .error e
    | .ok (e, rest) => parseLogicalTail fuel e rest

/-- Modelled from the spec: the left-associative chaining loop — while a
logical operator token follows, parse a right operand and combine into a
left-leaning tree. -/
def parseLogicalTail : Nat → expr → List token → Except mqlErr (expr × List token)
  | 0, _, _ => .error (.parseFailure "out of fuel")
  | fuel + 1, e, toks =>
    match toks with
    | { typ := .andToken, .. } :: rest =>
      match parseOperand fuel rest with
      | .error e2 => .error e2
      | .ok (r, rest2) => parseLogicalTail fuel (.logicalExpr e "and" r) rest2
    | { typ := .orToken, .. } :: rest =>
      match parseOperand fuel rest with
      | .error e2 => .error e2
      | .ok (r, rest2) => parseLogicalTail fuel (.logicalExpr e "or" r) rest2
    | _ => .ok (e, toks)

end

/-- Modelled from the spec: the missing `Parse` entry point — lex the query
with the embedded lexer, drop whitespace separator tokens, parse a single
condition covering the whole token stream, and compile it against the
validators; placeholder numbering starts at `$1`. -/
def mqlParse (validators : List (String × fieldType))
    (columnMap : List (String × String)) (pg : Bool) (query : String) :
    Except mqlErr WhereClause :=
  if query = "" then .error (.invalidParameter "missing query")
  else
    match lexAll query with
    | .error (.invalidNotEqual got) => .error (.parseFailure ("invalid != token, got " ++ got))
    | .ok toks =>
      let toks2 := toks.filter (fun t =>
        t.typ ≠ tokenType.whitespaceToken && t.typ ≠ tokenType.eofToken)
      match parseCondition (toks2.length + 1) toks2 with
      | .error e => .error e
      | .ok (e, rest) =>
        if rest.isEmpty then
          match exprToWhereClause validators columnMap pg e 1 with
          | .error e2 => .error e2
          | .ok (cond, args, _) => .ok { Condition := cond, Args := args }
        else .error (.parseFailure "unexpected trailing tokens")

end Mql

section PipelineExamples

example :
    Mql.mqlParse [("name", .stringT), ("age", .intT)] [] false
        "name=\"alice\" and age>\"21\"" =
      .ok { Condition := "(name=? and age>?)",
            Args := [.strV "alice", .intV 21] } := rfl

example :
    Mql.mqlParse [("name", .stringT)] [] false "name%\"alice\"" =
      .ok { Condition := "name like ?", Args := [.strV "%alice%"] } := rfl

example :
    Mql.mqlParse [("name", .stringT)] [] true
        "name=\"bob\" or (name%\"alice\" or name=\"eve\")" =
      .ok { Condition := "(name=$1 or (name like $2 or name=$3))",
            Args := [.strV "bob", .strV "%alice%", .strV "eve"] } := rfl

example :
    Mql.mqlParse [("name", .stringT)] [] false "ghost=\"x\"" =
      .error (.invalidColumn "ghost") := rfl

example :
    Mql.mqlParse [("created_at", .timeT)] [] false "created_at=\"2023-01-02\"" =
      .ok { Condition := "created_at::date=?", Args := [.timeV "2023-01-02"] } := rfl

end PipelineExamples

namespace Mql

mutual

/-- Remove every placeholder occurrence (`?`, or `$` followed by its digit
run) from a condition string, as in the claim's no-injection check. -/
def stripPlaceholders : List Char → List Char
  | [] => []
  | c :: rest =>
    if c = '?' then stripPlaceholders rest
    else if c = '$' then stripDigits rest
    else c :: stripPlaceholders rest

/-- Consume the digit run of a `$n` placeholder, then continue stripping. -/
def stripDigits : List Char → List Char
  | [] => []
  | c :: rest =>
    if c.isDigit then stripDigits rest
    else if c = '?' then stripPlaceholders rest
    else if c = '$' then stripDigits rest
    else c :: stripPlaceholders rest

end

/-- Does the second list start with the first? -/
def startsWithSeg : List Char → List Char → Bool
  | _, [] => true
  | [], _ :: _ => false
  | c :: cs, d :: ds => c = d && startsWithSeg cs ds

/-- Is `needle` a contiguous fragment of the second list? -/
def containsSeg (needle : List Char) : List Char → Bool
  | [] => needle.isEmpty
  | c :: rest => startsWithSeg (c :: rest) needle || containsSeg needle rest

/-- Structural equality of two expression trees with the comparison values
erased: same columns, operators and nesting; values free. -/
def sameShape : expr → expr → Bool
  | .comparisonExpr c1 o1 _, .comparisonExpr c2 o2 _ => c1 = c2 && o1 = o2
  | .logicalExpr l1 o1 r1, .logicalExpr l2 o2 r2 =>
    (o1 = o2 : Bool) && sameShape l1 l2 && sameShape r1 r2
  | .nilExpr, .nilExpr => true
  | _, _ => false

/-- C1 counterexample: the claim's literal form fails.  The query
`name="name"` parses and compiles successfully to condition `name=?` with
args `["name"]`; removing all placeholder occurrences leaves `name=`, which
does contain a fragment (indeed the whole text) of the argument value
`name`, because an argument value may coincide with structural text such as
a column name. -/
theorem no_injection_literal_counterexample :
    mqlParse [("name", .stringT)] [] false "name=\"name\"" =
      .ok { Condition := "name=?", Args := [.strV "name"] } ∧
    stripPlaceholders "name=?".toList = "name=".toList ∧
    containsSeg "name".toList "name=".toList = true :=
  ⟨rfl, rfl, rfl⟩

/-- C1 (amended): the emitted condition is value-independent — compiling any
two expression trees of identical shape (same columns, operators and
nesting, arbitrary comparison values) yields identical condition strings and
identical placeholder numbering, so every value-derived substring of the
condition is a placeholder and values reach only the args list. -/
theorem condition_value_independent (validators : List (String × fieldType))
    (columnMap : List (String × String)) (pg : Bool) :
    ∀ (t1 t2 : expr) (n : Nat) (c1 c2 : String) (a1 a2 : List sqlValue)
      (n1 n2 : Nat),
      sameShape t1 t2 = true →
      exprToWhereClause validators columnMap pg t1 n = .ok (c1, a1, n1) →
      exprToWhereClause validators columnMap pg t2 n = .ok (c2, a2, n2) →
      c1 = c2 ∧ n1 = n2 := by
  intro t1
  induction t1 with
  | comparisonExpr col op v =>
    intro t2 n c1 c2 a1 a2 n1 n2 hs h1 h2
    cases t2 with
    | logicalExpr _ _ _ => simp [sameShape] at hs
    | nilExpr => simp [sameShape] at hs
    | comparisonExpr col2 op2 v2 =>
      simp only [sameShape, Bool.and_eq_true, decide_eq_true_eq] at hs
      obtain ⟨hcol, hop⟩ := hs
      subst hcol
      subst hop
      simp only [exprToWhereClause] at h1 h2
      simp only [String.toList] at h1 h2
      cases hl : lookupStr (String.mk (toLower
          ((lookupStr col columnMap).getD col).data)) validators with
      | none => simp [hl] at h1
      | some typ =>
        simp only [hl] at h1 h2
        cases v with
        | none => simp at h1
        | some vv =>
          cases hc1 : defaultConvert typ op vv with
          | error e => simp [hc1] at h1
          | ok arg =>
            simp only [hc1] at h1
            cases v2 with
            | none => simp at h2
            | some vv2 =>
              cases hc2 : defaultConvert typ op vv2 with
              | error e => simp [hc2] at h2
              | ok arg2 =>
                simp only [hc2] at h2
                simp only [Except.ok.injEq, Prod.mk.injEq] at h1 h2
                exact ⟨h1.1 ▸ h2.1 ▸ rfl, h1.2.2 ▸ h2.2.2 ▸ rfl⟩
  | nilExpr =>
    intro t2 n c1 c2 a1 a2 n1 n2 hs h1 h2
    simp [exprToWhereClause] at h1
  | logicalExpr l lop r ihl ihr =>
    intro t2 n c1 c2 a1 a2 n1 n2 hs h1 h2
    cases t2 with
    | comparisonExpr _ _ _ => simp [sameShape] at hs
    | nilExpr => simp [sameShape] at hs
    | logicalExpr l2 lop2 r2 =>
      simp only [sameShape, Bool.and_eq_true, decide_eq_true_eq] at hs
      obtain ⟨⟨hop, hsl⟩, hsr⟩ := hs
      subst hop
      simp only [exprToWhereClause] at h1 h2
      by_cases hemp : lop = ""
      · rw [if_pos hemp] at h1
        simp at h1
      · rw [if_neg hemp] at h1 h2
        cases e1 : exprToWhereClause validators columnMap pg l n with
        | error e => simp [e1] at h1
        | ok p1 =>
          obtain ⟨lc1, la1, m1⟩ := p1
          simp only [e1] at h1
          cases e2 : exprToWhereClause validators columnMap pg l2 n with
          | error e => simp [e2] at h2
          | ok p2 =>
            obtain ⟨lc2, la2, m2⟩ := p2
            simp only [e2] at h2
            obtain ⟨hLc, hLn⟩ :=
              ihl l2 n lc1 lc2 la1 la2 m1 m2 hsl e1 e2
            subst hLc
            subst hLn
            cases e3 : exprToWhereClause validators columnMap pg r m1 with
            | error e => simp [e3] at h1
            | ok p3 =>
              obtain ⟨rc1, ra1, k1⟩ := p3
              simp only [e3] at h1
              cases e4 : exprToWhereClause validators columnMap pg r2 m1 with
              | error e => simp [e4] at h2
              | ok p4 =>
                obtain ⟨rc2, ra2, k2⟩ := p4
                simp only [e4] at h2
                obtain ⟨hRc, hRn⟩ :=
                  ihr r2 m1 rc1 rc2 ra1 ra2 k1 k2 hsr e3 e4
                subst hRc
                subst hRn
                simp only [Except.ok.injEq, Prod.mk.injEq] at h1 h2
                exact ⟨h1.1 ▸ h2.1 ▸ rfl, h1.2.2 ▸ h2.2.2 ▸ rfl⟩

/-- C1 amended-claim witness: two same-shape trees with different values
(`alice` vs `bob`) compile to the same condition `name=?` and the same next
placeholder number. -/
theorem condition_value_independent_witness :
    sameShape (.comparisonExpr "name" "=" (some "alice"))
        (.comparisonExpr "name" "=" (some "bob")) = true ∧
    exprToWhereClause [("name", .stringT)] [] false
        (.comparisonExpr "name" "=" (some "alice")) 1 =
      .ok ("name=?", [.strV "alice"], 2) ∧
    exprToWhereClause [("name", .stringT)] [] false
        (.comparisonExpr "name" "=" (some "bob")) 1 =
      .ok ("name=?", [.strV "bob"], 2) ∧
    ("name=?" = "name=?" ∧ (2 : Nat) = 2) :=
  ⟨rfl, rfl, rfl,
   condition_value_independent [("name", .stringT)] [] false
     (.comparisonExpr "name" "=" (some "alice"))
     (.comparisonExpr "name" "=" (some "bob"))
     1 "name=?" "name=?" [.strV "alice"] [.strV "bob"] 2 2 rfl rfl rfl⟩

end Mql
